import Mathlib

/-!
Verification model of the ALEC adaptive codec (alec-codec repository).

The repository ships the C interface (`alec.h`, `alec_generated.h`) and an
example; the codec core behind the FFI boundary is not among the sources.
Following the design document, the core is modelled here from the spec:
doubles and timestamps are represented by their 64-bit patterns (naturals
below 2^64), buffers by lists of byte values, and every operation is a pure
function with explicit state passing.  The generated header names the
source-identifier parameter `_source_id`, so the model takes and ignores it.
-/

namespace Alec

/-- Result codes, mirroring `AlecResult` of `alec.h` (values 0..8). -/
inductive AlecResult where
  | Ok
  | ErrorInvalidInput
  | ErrorBufferTooSmall
  | ErrorEncodingFailed
  | ErrorDecodingFailed
  | ErrorNullPointer
  | ErrorInvalidUtf8
  | ErrorFileIo
  | ErrorVersionMismatch
deriving DecidableEq, Repr

/-- Little-endian serialization of a natural into `w` bytes. -/
def toLEBytes : Nat → Nat → List Nat
  | 0, _ => []
  | w + 1, v => v % 256 :: toLEBytes w (v / 256)

/-- Little-endian deserialization of a byte list into a natural. -/
def fromLEBytes : List Nat → Nat
  | [] => 0
  | b :: bs => b + 256 * fromLEBytes bs

/--
Modelled from the spec: the per-source adaptive model state (§3, §4.2); the
implementation behind the FFI boundary is absent from the sources.  The model
keeps the most recently observed 64-bit value pattern (the predictor), the
adaptive table of distinct patterns learned so far, and the context version,
which increments exactly when a pattern not yet in the table is learned (the
structural-change predicate of §4.2).
-/
structure AdaptiveContext where
  lastValue : Option Nat
  table : List Nat
  version : Nat
deriving DecidableEq, Repr

/-- The empty context of a freshly constructed encoder or decoder. -/
def AdaptiveContext.empty : AdaptiveContext := ⟨none, [], 0⟩

/-- The model's prediction for the next value: the last observed pattern, 0 if none. -/
def prediction (c : AdaptiveContext) : Nat := c.lastValue.getD 0

/-- Residual coding of a value against the context's prediction (bitwise xor). -/
def residual (c : AdaptiveContext) (v : Nat) : Nat := Nat.xor (prediction c) v

/--
Modelled from the spec: `observe` updates the prediction state for one value
(§4.2 observe_and_encode) and bumps the version exactly when the model learns
a new pattern (a new symbol enters the adaptive table).
-/
def observe (c : AdaptiveContext) (v : Nat) : AdaptiveContext :=
  if v ∈ c.table then { c with lastValue := some v }
  else { lastValue := some v, table := v :: c.table, version := c.version + 1 }

/-- Fold `observe` over a batch of values (the `encode_multi` path). -/
def observeList (c : AdaptiveContext) (vs : List Nat) : AdaptiveContext :=
  vs.foldl observe c

/-- Well-formedness: every pattern held by the context fits in 64 bits. -/
def AdaptiveContext.wf (c : AdaptiveContext) : Bool :=
  decide (prediction c < 2 ^ 64) && c.table.all fun x => decide (x < 2 ^ 64)

/-- Frame format tag byte (§3 frame structure `[format-tag]...`). -/
def formatTag : Nat := 161

/--
Modelled from the spec: §4.1 `pack` prepends the fixed header
`[format-tag][checksum-flag][payload-length]` and, with checksum enabled,
appends a 4-byte integrity code over the payload (byte sum modulo 2^32).
-/
def packFrame (checksum : Bool) (payload : List Nat) : List Nat :=
  formatTag :: (if checksum then 1 else 0) ::
    (toLEBytes 4 payload.length ++
      (payload ++ (if checksum then toLEBytes 4 (payload.sum % 2 ^ 32) else [])))

/--
Modelled from the spec: §4.1 `unpack` fails with `InvalidInput` when the input
is shorter than the minimum header, with `DecodingFailed` when the declared
payload length exceeds the remaining bytes; checksum verification happens
immediately after unpack and a mismatch maps to `DecodingFailed`.
-/
def unpackVerify (input : List Nat) : Except AlecResult (Bool × List Nat) :=
  if input.length < 6 then .error .ErrorInvalidInput
  else
    let tag := fromLEBytes (input.take 1)
    let flag := fromLEBytes ((input.drop 1).take 1)
    let plen := fromLEBytes ((input.drop 2).take 4)
    let rest := input.drop 6
    if tag ≠ formatTag then .error .ErrorDecodingFailed
    else if 1 < flag then .error .ErrorDecodingFailed
    else if rest.length < plen + (if flag = 1 then 4 else 0) then .error .ErrorDecodingFailed
    else
      let payload := rest.take plen
      if flag = 1 then
        if fromLEBytes ((rest.drop plen).take 4) = payload.sum % 2 ^ 32 then .ok (true, payload)
        else .error .ErrorDecodingFailed
      else .ok (false, payload)

/-- Payload of a single-value frame: kind byte 1, embedded context version
(§4.4 structural marker), timestamp, residual. -/
def payloadValue (c : AdaptiveContext) (v t : Nat) : List Nat :=
  1 :: (toLEBytes 4 (c.version % 2 ^ 32) ++ (toLEBytes 8 t ++ toLEBytes 8 (residual c v)))

/-- Sequential residuals of a batch: each value is coded against the context
evolved by the values before it. -/
def residualsFor (c : AdaptiveContext) : List Nat → List Nat
  | [] => []
  | v :: rest => toLEBytes 8 (residual c v) ++ residualsFor (observe c v) rest

/-- Payload of a multi-value frame: kind byte 2, embedded context version,
shared timestamp, count, then the residuals (§3 shared-header batching). -/
def payloadMulti (c : AdaptiveContext) (vs : List Nat) (t : Nat) : List Nat :=
  2 :: (toLEBytes 4 (c.version % 2 ^ 32) ++
    (toLEBytes 8 t ++ (toLEBytes 4 vs.length ++ residualsFor c vs)))

/-- Encoder state: the exclusively owned context and the instance-lifetime
checksum mode (§4.3). -/
structure AlecEncoder where
  ctx : AdaptiveContext
  checksumEnabled : Bool
deriving DecidableEq, Repr

/-- `alec_encoder_new`: empty context, checksum disabled. -/
def alec_encoder_new : AlecEncoder := ⟨AdaptiveContext.empty, false⟩

/-- `alec_encoder_new_with_checksum`: empty context, checksum enabled. -/
def alec_encoder_new_with_checksum : AlecEncoder := ⟨AdaptiveContext.empty, true⟩

/-- `alec_encoder_context_version`: read-only introspection (§4.3). -/
def alec_encoder_context_version (e : AlecEncoder) : Nat := e.ctx.version

/-- The full frame `alec_encode_value` produces from the current state. -/
def encodeValueFrame (e : AlecEncoder) (v t : Nat) : List Nat :=
  packFrame e.checksumEnabled (payloadValue e.ctx v t)

/--
Modelled from the spec: `alec_encode_value` (§4.3 encode_value).  Output is
the written byte list (empty on failure: no partial writes), together with
the result code and the post-call encoder.  The `_source_id` argument is
ignored, as the generated header's parameter name `_source_id` records.
-/
def alec_encode_value (e : AlecEncoder) (v t : Nat) ( _source_id : Option (List Nat))
    (output_capacity : Nat) : AlecResult × List Nat × AlecEncoder :=
  let frame := encodeValueFrame e v t
  if frame.length ≤ output_capacity then
    (.Ok, frame, { e with ctx := observe e.ctx v })
  else (.ErrorBufferTooSmall, [], e)

/-- The full frame `alec_encode_multi` produces from the current state. -/
def encodeMultiFrame (e : AlecEncoder) (vs : List Nat) (t : Nat) : List Nat :=
  packFrame e.checksumEnabled (payloadMulti e.ctx vs t)

/--
Modelled from the spec: `alec_encode_multi` (§4.3 encode_multi), batching the
values under one shared header; `_source_id` is ignored as in
`alec_encode_value`.
-/
def alec_encode_multi (e : AlecEncoder) (vs : List Nat) (t : Nat)
    ( _source_id : Option (List Nat)) (output_capacity : Nat) :
    AlecResult × List Nat × AlecEncoder :=
  let frame := encodeMultiFrame e vs t
  if frame.length ≤ output_capacity then
    (.Ok, frame, { e with ctx := observeList e.ctx vs })
  else (.ErrorBufferTooSmall, [], e)

/-- Decoder state: the exclusively owned context and the checksum mode. -/
structure AlecDecoder where
  ctx : AdaptiveContext
  checksumEnabled : Bool
deriving DecidableEq, Repr

/-- `alec_decoder_new`: empty context, checksum disabled. -/
def alec_decoder_new : AlecDecoder := ⟨AdaptiveContext.empty, false⟩

/-- `alec_decoder_new_with_checksum`: empty context, checksum enabled. -/
def alec_decoder_new_with_checksum : AlecDecoder := ⟨AdaptiveContext.empty, true⟩

/-- `alec_decoder_context_version`: read-only introspection (§4.4). -/
def alec_decoder_context_version (d : AlecDecoder) : Nat := d.ctx.version

/--
Modelled from the spec: `alec_decode_value` (§4.4 decode_value): unpack,
verify checksum when present, check the embedded context version against the
decoder's (VersionMismatch on disagreement), then apply the context decode.
Decode never mutates the decoder (§3 lifecycle), so the input decoder is
returned unchanged.
-/
def alec_decode_value (d : AlecDecoder) (input : List Nat) :
    AlecResult × Option (Nat × Nat) × AlecDecoder :=
  match unpackVerify input with
  | .error e => (e, none, d)
  | .ok (_, payload) =>
    if payload.length = 21 ∧ payload.take 1 = [1] then
      if fromLEBytes ((payload.drop 1).take 4) = d.ctx.version % 2 ^ 32 then
        (.Ok, some (Nat.xor (prediction d.ctx) (fromLEBytes ((payload.drop 13).take 8)),
          fromLEBytes ((payload.drop 5).take 8)), d)
      else (.ErrorVersionMismatch, none, d)
    else (.ErrorDecodingFailed, none, d)

/-- Decode `n` sequential 8-byte residuals, evolving a local copy of the
context exactly as the encoder did (the decoder's own state is not touched). -/
def decodeResiduals (c : AdaptiveContext) : Nat → List Nat → List Nat
  | 0, _ => []
  | n + 1, bytes =>
    let v := Nat.xor (prediction c) (fromLEBytes (bytes.take 8))
    v :: decodeResiduals (observe c v) n (bytes.drop 8)

/--
Modelled from the spec: `alec_decode_multi` (§4.4 decode_multi): unpack and
verify as for decode_value, fail with `BufferTooSmall` when `values_capacity`
is below the encoded count, with `DecodingFailed` on structural corruption;
the decoder is returned unchanged.
-/
def alec_decode_multi (d : AlecDecoder) (input : List Nat) (values_capacity : Nat) :
    AlecResult × List Nat × AlecDecoder :=
  match unpackVerify input with
  | .error e => (e, [], d)
  | .ok (_, payload) =>
    if 17 ≤ payload.length ∧ payload.take 1 = [2] then
      if fromLEBytes ((payload.drop 1).take 4) = d.ctx.version % 2 ^ 32 then
        if payload.length = 17 + 8 * fromLEBytes ((payload.drop 13).take 4) then
          if values_capacity < fromLEBytes ((payload.drop 13).take 4) then
            (.ErrorBufferTooSmall, [], d)
          else
            (.Ok, decodeResiduals d.ctx (fromLEBytes ((payload.drop 13).take 4))
              (payload.drop 17), d)
        else (.ErrorDecodingFailed, [], d)
      else (.ErrorVersionMismatch, [], d)
    else (.ErrorDecodingFailed, [], d)

/-- One encode call on an encoder instance (the two encode entry points). -/
inductive EncCall where
  | one (v t : Nat) (sid : Option (List Nat)) (cap : Nat)
  | many (vs : List Nat) (t : Nat) (sid : Option (List Nat)) (cap : Nat)

/-- Apply one encode call, keeping the post-call encoder state. -/
def encStep (e : AlecEncoder) : EncCall → AlecEncoder
  | .one v t sid cap => (alec_encode_value e v t sid cap).2.2
  | .many vs t sid cap => (alec_encode_multi e vs t sid cap).2.2

/-- Run a finite sequence of encode calls on one encoder instance. -/
def runEncCalls (e : AlecEncoder) (cs : List EncCall) : AlecEncoder :=
  cs.foldl encStep e

/-- Serialize the adaptive table, one 8-byte little-endian entry per learned
pattern. -/
def tableToBytes : List Nat → List Nat
  | [] => []
  | x :: rest => toLEBytes 8 x ++ tableToBytes rest

/-- Read `n` 8-byte values back from a byte stream, returning them with the
unconsumed remainder; `none` when the stream is too short. -/
def readVals : Nat → List Nat → Option (List Nat × List Nat)
  | 0, bs => some ([], bs)
  | n + 1, bs =>
    if 8 ≤ bs.length then
      match readVals n (bs.drop 8) with
      | some (xs, rest) => some (fromLEBytes (bs.take 8) :: xs, rest)
      | none => none
    else none

/--
Modelled from the spec: `to_bytes` (§4.2 serialization), producing the
self-describing PersistedContext blob: a 2-byte magic, the sensor-type tag it
was trained against (length-prefixed), the context version, the predictor
state, and the length-prefixed adaptive table.
-/
def to_bytes (c : AdaptiveContext) (sensorType : List Nat) : List Nat :=
  65 :: 76 :: sensorType.length ::
    (sensorType ++ (toLEBytes 4 c.version ++
      ((match c.lastValue with
        | none => [0]
        | some v => 1 :: toLEBytes 8 v) ++
        (toLEBytes 4 c.table.length ++ tableToBytes c.table))))

/-- Parse the trailing table section of a persisted context blob. -/
def parseTable (lastV : Option Nat) (ver : Nat) (bs : List Nat) :
    Except AlecResult AdaptiveContext :=
  if 4 ≤ bs.length then
    match readVals (fromLEBytes (bs.take 4)) (bs.drop 4) with
    | some (tbl, []) => .ok ⟨lastV, tbl, ver⟩
    | some (_, _ :: _) => .error .ErrorDecodingFailed
    | none => .error .ErrorDecodingFailed
  else .error .ErrorInvalidInput

/--
Modelled from the spec: `from_bytes` (§4.2 deserialization), the inverse of
`to_bytes`; it fails with `ErrorInvalidInput` or `ErrorDecodingFailed` on
malformed blobs, and rejects a blob whose recorded sensor-type tag differs
from the expected one (§6).
-/
def from_bytes (blob : List Nat) (sensorType : List Nat) :
    Except AlecResult AdaptiveContext :=
  match blob with
  | m0 :: m1 :: slen :: rest =>
    if m0 = 65 ∧ m1 = 76 ∧ slen ≤ rest.length ∧ rest.take slen = sensorType then
      if 5 ≤ (rest.drop slen).length then
        if fromLEBytes (((rest.drop slen).drop 4).take 1) = 0 then
          parseTable none (fromLEBytes ((rest.drop slen).take 4))
            (((rest.drop slen).drop 4).drop 1)
        else if fromLEBytes (((rest.drop slen).drop 4).take 1) = 1 then
          if 8 ≤ (((rest.drop slen).drop 4).drop 1).length then
            parseTable (some (fromLEBytes ((((rest.drop slen).drop 4).drop 1).take 8)))
              (fromLEBytes ((rest.drop slen).take 4))
              ((((rest.drop slen).drop 4).drop 1).drop 8)
          else .error .ErrorDecodingFailed
        else .error .ErrorDecodingFailed
      else .error .ErrorInvalidInput
    else .error .ErrorInvalidInput
  | _ => .error .ErrorInvalidInput

theorem toLEBytes_length (w v : Nat) : (toLEBytes w v).length = w := by
  induction w generalizing v with
  | zero => rfl
  | succ n ih => simp [toLEBytes, ih]

theorem toLEBytes_lt (w v : Nat) : ∀ b ∈ toLEBytes w v, b < 256 := by
  induction w generalizing v with
  | zero => simp [toLEBytes]
  | succ n ih =>
    intro b hb
    simp only [toLEBytes, List.mem_cons] at hb
    rcases hb with h | h
    · subst h; exact Nat.mod_lt _ (by norm_num)
    · exact ih _ b h

theorem fromLEBytes_toLEBytes (w v : Nat) :
    fromLEBytes (toLEBytes w v) = v % 256 ^ w := by
  induction w generalizing v with
  | zero => simp [toLEBytes, fromLEBytes, Nat.mod_one]
  | succ n ih =>
    simp only [toLEBytes, fromLEBytes, ih]
    rw [pow_succ, mul_comm (256 ^ n) 256, Nat.mod_mul]

theorem fromLEBytes_toLEBytes_of_lt {w v : Nat} (h : v < 256 ^ w) :
    fromLEBytes (toLEBytes w v) = v := by
  rw [fromLEBytes_toLEBytes, Nat.mod_eq_of_lt h]

theorem pow256_4 : (256 : Nat) ^ 4 = 2 ^ 32 := by norm_num

theorem pow256_8 : (256 : Nat) ^ 8 = 2 ^ 64 := by norm_num

theorem fromLE_toLE4 {v : Nat} (h : v < 2 ^ 32) : fromLEBytes (toLEBytes 4 v) = v :=
  fromLEBytes_toLEBytes_of_lt (by rw [pow256_4]; exact h)

theorem fromLE_toLE8 {v : Nat} (h : v < 2 ^ 64) : fromLEBytes (toLEBytes 8 v) = v :=
  fromLEBytes_toLEBytes_of_lt (by rw [pow256_8]; exact h)

theorem take_append_len {l1 l2 : List Nat} {n : Nat} (h : n = l1.length) :
    (l1 ++ l2).take n = l1 := by
  subst h; simp

theorem drop_append_len {l1 l2 : List Nat} {n : Nat} (h : n = l1.length) :
    (l1 ++ l2).drop n = l2 := by
  subst h; simp

theorem fromLEBytes_singleton (a : Nat) : fromLEBytes [a] = a := by
  simp [fromLEBytes]

theorem xor_cancel_left (p v : Nat) : p ^^^ (p ^^^ v) = v := by
  rw [← Nat.xor_assoc, Nat.xor_self, Nat.zero_xor]

/-- Unpacking a packed frame recovers the checksum flag and the payload. -/
theorem unpackVerify_packFrame (chk : Bool) (p : List Nat) (hp : p.length < 2 ^ 32) :
    unpackVerify (packFrame chk p) = .ok (chk, p) := by
  cases chk with
  | false =>
    have hlen4 : (4 : Nat) = (toLEBytes 4 p.length).length := (toLEBytes_length 4 _).symm
    simp only [packFrame, Bool.false_eq_true, if_false, List.append_nil]
    simp only [unpackVerify]
    rw [if_neg (by simp [toLEBytes_length])]
    simp only [List.take_succ_cons, List.take_zero, List.drop_succ_cons, List.drop_zero,
      fromLEBytes_singleton]
    rw [take_append_len hlen4, drop_append_len hlen4, fromLE_toLE4 hp]
    simp [formatTag]
  | true =>
    have hlen4 : (4 : Nat) = (toLEBytes 4 p.length).length := (toLEBytes_length 4 _).symm
    simp only [packFrame, if_pos rfl]
    simp only [unpackVerify]
    rw [if_neg (by simp [toLEBytes_length])]
    simp only [List.take_succ_cons, List.take_zero, List.drop_succ_cons, List.drop_zero,
      fromLEBytes_singleton]
    rw [take_append_len hlen4, drop_append_len hlen4, fromLE_toLE4 hp]
    rw [take_append_len rfl, drop_append_len rfl]
    have htake : (toLEBytes 4 (p.sum % 2 ^ 32)).take 4 = toLEBytes 4 (p.sum % 2 ^ 32) :=
      List.take_of_length_le (by simp [toLEBytes_length])
    have hval : fromLEBytes (toLEBytes 4 (p.sum % 2 ^ 32)) = p.sum % 2 ^ 32 :=
      fromLE_toLE4 (Nat.mod_lt _ (by norm_num))
    norm_num at hval
    simp only [formatTag, toLEBytes_length, htake, hval]
    simp [toLEBytes_length]
    rw [List.take_of_length_le (by simp [toLEBytes_length])]
    exact hval

theorem payloadValue_length (c : AdaptiveContext) (v t : Nat) :
    (payloadValue c v t).length = 21 := by
  simp [payloadValue, toLEBytes_length]

theorem payloadValue_take1 (c : AdaptiveContext) (v t : Nat) :
    (payloadValue c v t).take 1 = [1] := rfl

theorem payloadValue_drop1 (c : AdaptiveContext) (v t : Nat) :
    (payloadValue c v t).drop 1 =
      toLEBytes 4 (c.version % 2 ^ 32) ++ (toLEBytes 8 t ++ toLEBytes 8 (residual c v)) := rfl

theorem payloadValue_drop5 (c : AdaptiveContext) (v t : Nat) :
    (payloadValue c v t).drop 5 = toLEBytes 8 t ++ toLEBytes 8 (residual c v) := by
  have h : (payloadValue c v t).drop 5 =
      ((toLEBytes 4 (c.version % 2 ^ 32) ++
        (toLEBytes 8 t ++ toLEBytes 8 (residual c v))).drop 4) := by
    simp [payloadValue, List.drop_succ_cons]
  rw [h, drop_append_len (toLEBytes_length 4 _).symm]

theorem payloadValue_drop13 (c : AdaptiveContext) (v t : Nat) :
    (payloadValue c v t).drop 13 = toLEBytes 8 (residual c v) := by
  have h : (payloadValue c v t).drop 13 = ((payloadValue c v t).drop 5).drop 8 :=
    (List.drop_drop 8 5 _).symm
  rw [h, payloadValue_drop5, drop_append_len (toLEBytes_length 8 _).symm]

theorem payloadValue_ver (c : AdaptiveContext) (v t : Nat) :
    fromLEBytes (((payloadValue c v t).drop 1).take 4) = c.version % 2 ^ 32 := by
  rw [payloadValue_drop1, take_append_len (toLEBytes_length 4 _).symm]
  exact fromLE_toLE4 (Nat.mod_lt _ (by norm_num))

theorem payloadValue_ts (c : AdaptiveContext) (v t : Nat) (ht : t < 2 ^ 64) :
    fromLEBytes (((payloadValue c v t).drop 5).take 8) = t := by
  rw [payloadValue_drop5, take_append_len (toLEBytes_length 8 _).symm]
  exact fromLE_toLE8 ht

theorem prediction_lt_of_wf {c : AdaptiveContext} (h : c.wf = true) :
    prediction c < 2 ^ 64 := by
  have := (Bool.and_eq_true _ _).mp h |>.1
  exact of_decide_eq_true this

theorem table_lt_of_wf {c : AdaptiveContext} (h : c.wf = true) :
    ∀ x ∈ c.table, x < 2 ^ 64 := by
  have := (Bool.and_eq_true _ _).mp h |>.2
  intro x hx
  exact of_decide_eq_true (List.all_eq_true.mp this x hx)

theorem residual_lt {c : AdaptiveContext} {v : Nat} (hc : c.wf = true) (hv : v < 2 ^ 64) :
    residual c v < 2 ^ 64 :=
  Nat.xor_lt_two_pow (prediction_lt_of_wf hc) hv

theorem payloadValue_res (c : AdaptiveContext) (v t : Nat) (hc : c.wf = true)
    (hv : v < 2 ^ 64) :
    fromLEBytes (((payloadValue c v t).drop 13).take 8) = residual c v := by
  rw [payloadValue_drop13, List.take_of_length_le (by simp [toLEBytes_length])]
  exact fromLE_toLE8 (residual_lt hc hv)

theorem observe_wf {c : AdaptiveContext} {v : Nat} (hc : c.wf = true) (hv : v < 2 ^ 64) :
    (observe c v).wf = true := by
  have hp := prediction_lt_of_wf hc
  have htb := table_lt_of_wf hc
  unfold observe
  by_cases hmem : v ∈ c.table
  · rw [if_pos hmem]
    simp only [AdaptiveContext.wf, prediction, Bool.and_eq_true, decide_eq_true_eq,
      List.all_eq_true]
    exact ⟨hv, fun x hx => htb x hx⟩
  · rw [if_neg hmem]
    simp only [AdaptiveContext.wf, prediction, Bool.and_eq_true, decide_eq_true_eq,
      List.all_eq_true]
    refine ⟨hv, fun x hx => ?_⟩
    rcases List.mem_cons.mp hx with h | h
    · subst h; exact hv
    · exact htb x h

theorem observe_decode (c : AdaptiveContext) (v : Nat) :
    Nat.xor (prediction c) (residual c v) = v :=
  xor_cancel_left (prediction c) v

/--
Claim C1: with identical encoder/decoder context state, decoding the frame
produced by `alec_encode_value` for any 64-bit value pattern `v`, timestamp
`t` and source identifier succeeds with `Ok` and returns exactly `(v, t)`.
-/
theorem C1_encode_decode_value_roundtrip (e : AlecEncoder) (d : AlecDecoder)
    (v t : Nat) (sid : Option (List Nat)) (cap : Nat)
    (hctx : d.ctx = e.ctx) (hwf : e.ctx.wf = true) (hv : v < 2 ^ 64) (ht : t < 2 ^ 64)
    (hcap : (encodeValueFrame e v t).length ≤ cap) :
    (alec_encode_value e v t sid cap).1 = .Ok ∧
    alec_decode_value d (alec_encode_value e v t sid cap).2.1 = (.Ok, some (v, t), d) := by
  have henc : alec_encode_value e v t sid cap =
      (.Ok, encodeValueFrame e v t, { e with ctx := observe e.ctx v }) := by
    simp only [alec_encode_value]
    rw [if_pos hcap]
  refine ⟨by rw [henc], ?_⟩
  rw [henc]
  show alec_decode_value d (encodeValueFrame e v t) = (.Ok, some (v, t), d)
  have hup : unpackVerify (encodeValueFrame e v t) =
      .ok (e.checksumEnabled, payloadValue e.ctx v t) := by
    apply unpackVerify_packFrame
    rw [payloadValue_length]; norm_num
  simp only [alec_decode_value, hup]
  rw [if_pos ⟨payloadValue_length e.ctx v t, payloadValue_take1 e.ctx v t⟩]
  rw [payloadValue_ver, hctx, if_pos rfl]
  rw [payloadValue_res e.ctx v t hwf hv, payloadValue_ts e.ctx v t ht, observe_decode]

/--
Witness for C1 at a concrete input: a fresh encoder/decoder pair (identical
empty contexts), value pattern 4650034656634863616 (the bits of the double
1000.25), timestamp 123456789.
-/
theorem C1_encode_decode_value_roundtrip_witness :
    alec_decoder_new.ctx = alec_encoder_new.ctx ∧
    alec_encoder_new.ctx.wf = true ∧
    (alec_encode_value alec_encoder_new 4650034656634863616 123456789 none 64).1 = .Ok ∧
    alec_decode_value alec_decoder_new
      (alec_encode_value alec_encoder_new 4650034656634863616 123456789 none 64).2.1 =
      (.Ok, some (4650034656634863616, 123456789), alec_decoder_new) := by
  refine ⟨rfl, by decide, ?_⟩
  exact C1_encode_decode_value_roundtrip alec_encoder_new alec_decoder_new
    4650034656634863616 123456789 none 64 rfl (by decide) (by norm_num) (by norm_num)
    (by decide)

theorem residualsFor_length (vs : List Nat) (c : AdaptiveContext) :
    (residualsFor c vs).length = 8 * vs.length := by
  induction vs generalizing c with
  | nil => rfl
  | cons v rest ih =>
    simp only [residualsFor, List.length_append, toLEBytes_length, ih, List.length_cons]
    ring

theorem payloadMulti_length (c : AdaptiveContext) (vs : List Nat) (t : Nat) :
    (payloadMulti c vs t).length = 17 + 8 * vs.length := by
  simp only [payloadMulti, List.length_cons, List.length_append, toLEBytes_length,
    residualsFor_length]
  ring

theorem payloadMulti_take1 (c : AdaptiveContext) (vs : List Nat) (t : Nat) :
    (payloadMulti c vs t).take 1 = [2] := rfl

theorem payloadMulti_ver (c : AdaptiveContext) (vs : List Nat) (t : Nat) :
    fromLEBytes (((payloadMulti c vs t).drop 1).take 4) = c.version % 2 ^ 32 := by
  show fromLEBytes ((toLEBytes 4 (c.version % 2 ^ 32) ++
    (toLEBytes 8 t ++ (toLEBytes 4 vs.length ++ residualsFor c vs))).take 4) =
    c.version % 2 ^ 32
  rw [take_append_len (toLEBytes_length 4 _).symm]
  exact fromLE_toLE4 (Nat.mod_lt _ (by norm_num))

theorem payloadMulti_drop13 (c : AdaptiveContext) (vs : List Nat) (t : Nat) :
    (payloadMulti c vs t).drop 13 = toLEBytes 4 vs.length ++ residualsFor c vs := by
  have h5 : (payloadMulti c vs t).drop 5 =
      toLEBytes 8 t ++ (toLEBytes 4 vs.length ++ residualsFor c vs) := by
    have h : (payloadMulti c vs t).drop 5 =
        ((toLEBytes 4 (c.version % 2 ^ 32) ++
          (toLEBytes 8 t ++ (toLEBytes 4 vs.length ++ residualsFor c vs))).drop 4) := by
      simp [payloadMulti, List.drop_succ_cons]
    rw [h, drop_append_len (toLEBytes_length 4 _).symm]
  have h13 : (payloadMulti c vs t).drop 13 = ((payloadMulti c vs t).drop 5).drop 8 :=
    (List.drop_drop 8 5 _).symm
  rw [h13, h5, drop_append_len (toLEBytes_length 8 _).symm]

theorem payloadMulti_cnt (c : AdaptiveContext) (vs : List Nat) (t : Nat)
    (hn : vs.length < 2 ^ 32) :
    fromLEBytes (((payloadMulti c vs t).drop 13).take 4) = vs.length := by
  rw [payloadMulti_drop13, take_append_len (toLEBytes_length 4 _).symm]
  exact fromLE_toLE4 hn

theorem payloadMulti_drop17 (c : AdaptiveContext) (vs : List Nat) (t : Nat) :
    (payloadMulti c vs t).drop 17 = residualsFor c vs := by
  have h : (payloadMulti c vs t).drop 17 = ((payloadMulti c vs t).drop 13).drop 4 :=
    (List.drop_drop 4 13 _).symm
  rw [h, payloadMulti_drop13, drop_append_len (toLEBytes_length 4 _).symm]

theorem decodeResiduals_residualsFor (vs : List Nat) (c : AdaptiveContext)
    (hc : c.wf = true) (hvs : ∀ x ∈ vs, x < 2 ^ 64) :
    decodeResiduals c vs.length (residualsFor c vs) = vs := by
  induction vs generalizing c with
  | nil => rfl
  | cons v rest ih =>
    have hv : v < 2 ^ 64 := hvs v (List.mem_cons_self _ _)
    simp only [residualsFor, List.length_cons, decodeResiduals]
    rw [take_append_len (toLEBytes_length 8 _).symm,
      drop_append_len (toLEBytes_length 8 _).symm,
      fromLE_toLE8 (residual_lt hc hv), observe_decode]
    rw [ih (observe c v) (observe_wf hc hv) (fun x hx => hvs x (List.mem_cons_of_mem _ hx))]

/--
Claim C2: with identical encoder/decoder context state and sufficient
`values_capacity`, decoding the frame produced by `alec_encode_multi` for a
non-empty batch of 64-bit value patterns sharing one timestamp and source id
returns the same sequence: same length, same values, same order.
-/
theorem C2_encode_decode_multi_roundtrip (e : AlecEncoder) (d : AlecDecoder)
    (vs : List Nat) (t : Nat) (sid : Option (List Nat)) (cap vcap : Nat)
    ( _hne : vs ≠ []) (hctx : d.ctx = e.ctx) (hwf : e.ctx.wf = true)
    (hvs : ∀ x ∈ vs, x < 2 ^ 64) (hn : vs.length < 2 ^ 28)
    (hcap : (encodeMultiFrame e vs t).length ≤ cap) (hvcap : vs.length ≤ vcap) :
    (alec_encode_multi e vs t sid cap).1 = .Ok ∧
    alec_decode_multi d (alec_encode_multi e vs t sid cap).2.1 vcap = (.Ok, vs, d) := by
  have hn32 : vs.length < 2 ^ 32 := lt_trans hn (by norm_num)
  have henc : alec_encode_multi e vs t sid cap =
      (.Ok, encodeMultiFrame e vs t, { e with ctx := observeList e.ctx vs }) := by
    simp only [alec_encode_multi]
    rw [if_pos hcap]
  refine ⟨by rw [henc], ?_⟩
  rw [henc]
  show alec_decode_multi d (encodeMultiFrame e vs t) vcap = (.Ok, vs, d)
  have hup : unpackVerify (encodeMultiFrame e vs t) =
      .ok (e.checksumEnabled, payloadMulti e.ctx vs t) := by
    apply unpackVerify_packFrame
    rw [payloadMulti_length]
    have : 8 * vs.length < 2 ^ 31 := by
      calc 8 * vs.length < 8 * 2 ^ 28 := by omega
      _ = 2 ^ 31 := by norm_num
    omega
  simp only [alec_decode_multi, hup]
  rw [if_pos ⟨by rw [payloadMulti_length]; omega, payloadMulti_take1 e.ctx vs t⟩]
  rw [payloadMulti_ver, hctx, if_pos rfl]
  rw [payloadMulti_cnt e.ctx vs t hn32]
  rw [if_pos (payloadMulti_length e.ctx vs t)]
  rw [if_neg (by omega)]
  rw [payloadMulti_drop17, decodeResiduals_residualsFor vs e.ctx hwf hvs]

/--
Witness for C2 at a concrete input: a fresh encoder/decoder pair and the
three-value batch [5, 6, 5] at timestamp 3.
-/
theorem C2_encode_decode_multi_roundtrip_witness :
    ([5, 6, 5] : List Nat) ≠ [] ∧
    alec_decoder_new.ctx = alec_encoder_new.ctx ∧
    alec_encoder_new.ctx.wf = true ∧
    (alec_encode_multi alec_encoder_new [5, 6, 5] 3 none 64).1 = .Ok ∧
    alec_decode_multi alec_decoder_new
      (alec_encode_multi alec_encoder_new [5, 6, 5] 3 none 64).2.1 8 =
      (.Ok, [5, 6, 5], alec_decoder_new) := by
  refine ⟨by decide, rfl, by decide, ?_⟩
  exact C2_encode_decode_multi_roundtrip alec_encoder_new alec_decoder_new
    [5, 6, 5] 3 none 64 8 (by decide) rfl (by decide) (by decide) (by decide)
    (by decide) (by decide)

theorem sum_set_add (l : List Nat) (i b : Nat) (h : i < l.length) :
    (l.set i b).sum + l.get ⟨i, h⟩ = l.sum + b := by
  induction l generalizing i with
  | nil => simp at h
  | cons a as ih =>
    cases i with
    | zero => simp [List.set]; omega
    | succ j =>
      simp only [List.set, List.sum_cons, List.get]
      have := ih j (by simpa using h)
      omega

theorem sum_set_mod_ne (q : List Nat) (i b : Nat) (hi : i < q.length)
    (hq : ∀ x ∈ q, x < 256) (hb : b < 256) (hne : b ≠ q.get ⟨i, hi⟩) :
    (q.set i b).sum % 2 ^ 32 ≠ q.sum % 2 ^ 32 := by
  intro h
  have hsum := sum_set_add q i b hi
  have hold : q.get ⟨i, hi⟩ < 256 := hq _ (q.get_mem _ _)
  have h1 : (q.sum + b) % 2 ^ 32 = (q.sum + q.get ⟨i, hi⟩) % 2 ^ 32 := by
    rw [← hsum, Nat.add_mod, h, ← Nat.add_mod]
  have h2 : b ≡ q.get ⟨i, hi⟩ [MOD 2 ^ 32] := Nat.ModEq.add_left_cancel' q.sum h1
  have h3 : b % 2 ^ 32 = q.get ⟨i, hi⟩ % 2 ^ 32 := h2
  rw [Nat.mod_eq_of_lt (by omega), Nat.mod_eq_of_lt (by omega)] at h3
  exact hne h3

/-- Evaluation of `unpackVerify` on a checksummed frame with an arbitrary
trailer value: the payload is accepted exactly when the trailer matches. -/
theorem unpackVerify_eval_chk (p : List Nat) (c : Nat) (hp : p.length < 2 ^ 32)
    (hc : c < 2 ^ 32) :
    unpackVerify (formatTag :: 1 :: (toLEBytes 4 p.length ++ (p ++ toLEBytes 4 c))) =
      if c = p.sum % 2 ^ 32 then .ok (true, p) else .error .ErrorDecodingFailed := by
  have hlen4 : (4 : Nat) = (toLEBytes 4 p.length).length := (toLEBytes_length 4 _).symm
  simp only [unpackVerify]
  rw [if_neg (by simp [toLEBytes_length])]
  simp only [List.take_succ_cons, List.take_zero, List.drop_succ_cons, List.drop_zero,
    fromLEBytes_singleton]
  rw [take_append_len hlen4, drop_append_len hlen4, fromLE_toLE4 hp]
  rw [take_append_len rfl, drop_append_len rfl]
  have htake : (toLEBytes 4 c).take 4 = toLEBytes 4 c :=
    List.take_of_length_le (by simp [toLEBytes_length])
  have hval : fromLEBytes (toLEBytes 4 c) = c := fromLE_toLE4 hc
  simp only [formatTag, toLEBytes_length, htake, hval]
  simp [toLEBytes_length]

/-- Setting one payload byte of a checksummed frame to a different byte value
makes `unpackVerify` fail with `ErrorDecodingFailed`. -/
theorem unpackVerify_corrupt (p : List Nat) (i b : Nat) (hp : p.length < 2 ^ 32)
    (hbytes : ∀ x ∈ p, x < 256) (hi : i < p.length) (hb : b < 256)
    (hne : b ≠ p.get ⟨i, hi⟩) :
    unpackVerify ((packFrame true p).set (6 + i) b) = .error .ErrorDecodingFailed := by
  have hsplit : packFrame true p =
      (formatTag :: 1 :: toLEBytes 4 p.length) ++ (p ++ toLEBytes 4 (p.sum % 2 ^ 32)) := by
    simp [packFrame]
  have hhd : (formatTag :: 1 :: toLEBytes 4 p.length).length = 6 := by
    simp [toLEBytes_length]
  have hset : (packFrame true p).set (6 + i) b =
      formatTag :: 1 :: (toLEBytes 4 p.length ++ (p.set i b ++ toLEBytes 4 (p.sum % 2 ^ 32))) := by
    rw [hsplit, List.set_append_right _ _ (by omega), hhd]
    have hidx : 6 + i - 6 = i := by omega
    rw [hidx, List.set_append_left _ _ hi]
    rfl
  rw [hset]
  have hlenset : (p.set i b).length = p.length := List.length_set p i b
  have heval := unpackVerify_eval_chk (p.set i b) (p.sum % 2 ^ 32)
    (by rw [hlenset]; exact hp) (Nat.mod_lt _ (by norm_num))
  rw [hlenset] at heval
  rw [heval, if_neg (fun hcontra => sum_set_mod_ne p i b hi hbytes hb hne hcontra.symm)]

theorem payloadValue_bytes_lt (c : AdaptiveContext) (v t : Nat) :
    ∀ x ∈ payloadValue c v t, x < 256 := by
  intro x hx
  simp only [payloadValue, List.mem_cons, List.mem_append] at hx
  rcases hx with h | h | h | h
  · omega
  · exact toLEBytes_lt 4 _ x h
  · exact toLEBytes_lt 8 _ x h
  · exact toLEBytes_lt 8 _ x h

theorem residualsFor_bytes_lt (vs : List Nat) (c : AdaptiveContext) :
    ∀ x ∈ residualsFor c vs, x < 256 := by
  induction vs generalizing c with
  | nil => simp [residualsFor]
  | cons v rest ih =>
    intro x hx
    simp only [residualsFor, List.mem_append] at hx
    rcases hx with h | h
    · exact toLEBytes_lt 8 _ x h
    · exact ih (observe c v) x h

theorem payloadMulti_bytes_lt (c : AdaptiveContext) (vs : List Nat) (t : Nat) :
    ∀ x ∈ payloadMulti c vs t, x < 256 := by
  intro x hx
  simp only [payloadMulti, List.mem_cons, List.mem_append] at hx
  rcases hx with h | h | h | h | h
  · omega
  · exact toLEBytes_lt 4 _ x h
  · exact toLEBytes_lt 8 _ x h
  · exact toLEBytes_lt 4 _ x h
  · exact residualsFor_bytes_lt vs c x h

/--
Claim C3: for a frame produced by a checksum-enabled encoder (single-value or
multi-value), changing any single payload byte makes both `alec_decode_value`
and `alec_decode_multi` on a checksum-enabled decoder fail with
`ErrorDecodingFailed` instead of returning any value.
-/
theorem C3_checksum_single_byte_sensitivity (e : AlecEncoder) (d : AlecDecoder)
    (v t : Nat) (vs : List Nat) (t2 : Nat) (i1 b1 i2 b2 vcap : Nat)
    (hchk : e.checksumEnabled = true) ( _hdchk : d.checksumEnabled = true)
    (hi1 : i1 < (payloadValue e.ctx v t).length) (hb1 : b1 < 256)
    (hne1 : b1 ≠ (payloadValue e.ctx v t).get ⟨i1, hi1⟩)
    (hn : vs.length < 2 ^ 28)
    (hi2 : i2 < (payloadMulti e.ctx vs t2).length) (hb2 : b2 < 256)
    (hne2 : b2 ≠ (payloadMulti e.ctx vs t2).get ⟨i2, hi2⟩) :
    alec_decode_value d ((encodeValueFrame e v t).set (6 + i1) b1) =
      (.ErrorDecodingFailed, none, d) ∧
    alec_decode_multi d ((encodeValueFrame e v t).set (6 + i1) b1) vcap =
      (.ErrorDecodingFailed, [], d) ∧
    alec_decode_value d ((encodeMultiFrame e vs t2).set (6 + i2) b2) =
      (.ErrorDecodingFailed, none, d) ∧
    alec_decode_multi d ((encodeMultiFrame e vs t2).set (6 + i2) b2) vcap =
      (.ErrorDecodingFailed, [], d) := by
  have hlen1 : (payloadValue e.ctx v t).length < 2 ^ 32 := by
    rw [payloadValue_length]; norm_num
  have hlen2 : (payloadMulti e.ctx vs t2).length < 2 ^ 32 := by
    rw [payloadMulti_length]
    have : 8 * vs.length < 2 ^ 31 := by
      calc 8 * vs.length < 8 * 2 ^ 28 := by omega
      _ = 2 ^ 31 := by norm_num
    omega
  have hcor1 : unpackVerify ((encodeValueFrame e v t).set (6 + i1) b1) =
      .error .ErrorDecodingFailed := by
    rw [encodeValueFrame, hchk]
    exact unpackVerify_corrupt _ i1 b1 hlen1 (payloadValue_bytes_lt e.ctx v t) hi1 hb1 hne1
  have hcor2 : unpackVerify ((encodeMultiFrame e vs t2).set (6 + i2) b2) =
      .error .ErrorDecodingFailed := by
    rw [encodeMultiFrame, hchk]
    exact unpackVerify_corrupt _ i2 b2 hlen2 (payloadMulti_bytes_lt e.ctx vs t2) hi2 hb2 hne2
  refine ⟨?_, ?_, ?_, ?_⟩
  · simp only [alec_decode_value, hcor1]
  · simp only [alec_decode_multi, hcor1]
  · simp only [alec_decode_value, hcor2]
  · simp only [alec_decode_multi, hcor2]

/--
Witness for C3 at a concrete input: checksummed single-value frame for
(42, 7) and multi frame for [5, 6] at timestamp 3, each with payload byte 0
(the kind byte) overwritten by 9.
-/
theorem C3_checksum_single_byte_sensitivity_witness :
    (9 : Nat) ≠ (payloadValue alec_encoder_new_with_checksum.ctx 42 7).get
      ⟨0, by decide⟩ ∧
    (9 : Nat) ≠ (payloadMulti alec_encoder_new_with_checksum.ctx [5, 6] 3).get
      ⟨0, by decide⟩ ∧
    alec_decode_value alec_decoder_new_with_checksum
      ((encodeValueFrame alec_encoder_new_with_checksum 42 7).set 6 9) =
      (.ErrorDecodingFailed, none, alec_decoder_new_with_checksum) ∧
    alec_decode_multi alec_decoder_new_with_checksum
      ((encodeMultiFrame alec_encoder_new_with_checksum [5, 6] 3).set 6 9) 4 =
      (.ErrorDecodingFailed, [], alec_decoder_new_with_checksum) := by
  refine ⟨by decide, by decide, ?_, ?_⟩
  · have h := C3_checksum_single_byte_sensitivity alec_encoder_new_with_checksum
      alec_decoder_new_with_checksum 42 7 [5, 6] 3 0 9 0 9 4 rfl rfl
      (by decide) (by decide) (by decide) (by decide) (by decide) (by decide)
      (by decide)
    exact h.1
  · have h := C3_checksum_single_byte_sensitivity alec_encoder_new_with_checksum
      alec_decoder_new_with_checksum 42 7 [5, 6] 3 0 9 0 9 4 rfl rfl
      (by decide) (by decide) (by decide) (by decide) (by decide) (by decide)
      (by decide)
    exact h.2.2.2

theorem alec_decode_value_snd (d : AlecDecoder) (input : List Nat) :
    (alec_decode_value d input).2.2 = d := by
  unfold alec_decode_value
  cases unpackVerify input with
  | error e => rfl
  | ok pr =>
    obtain ⟨chk, payload⟩ := pr
    dsimp only
    split
    · split <;> rfl
    · rfl

theorem alec_decode_multi_snd (d : AlecDecoder) (input : List Nat) (vcap : Nat) :
    (alec_decode_multi d input vcap).2.2 = d := by
  unfold alec_decode_multi
  cases unpackVerify input with
  | error e => rfl
  | ok pr =>
    obtain ⟨chk, payload⟩ := pr
    dsimp only
    split
    · split
      · split
        · split <;> rfl
        · rfl
      · rfl
    · rfl

/--
Claim C4: every encode or decode call that returns a non-Ok result leaves the
instance exactly as it was: failing operations never mutate the context or
bump the version.
-/
theorem C4_failure_is_atomic (e : AlecEncoder) (d : AlecDecoder) (v t : Nat)
    (vs : List Nat) (sid : Option (List Nat)) (cap : Nat) (input : List Nat)
    (vcap : Nat) :
    ((alec_encode_value e v t sid cap).1 ≠ .Ok →
      (alec_encode_value e v t sid cap).2.2 = e) ∧
    ((alec_encode_multi e vs t sid cap).1 ≠ .Ok →
      (alec_encode_multi e vs t sid cap).2.2 = e) ∧
    ((alec_decode_value d input).1 ≠ .Ok → (alec_decode_value d input).2.2 = d) ∧
    ((alec_decode_multi d input vcap).1 ≠ .Ok →
      (alec_decode_multi d input vcap).2.2 = d) := by
  refine ⟨?_, ?_, fun _ => alec_decode_value_snd d input,
    fun _ => alec_decode_multi_snd d input vcap⟩
  · simp only [alec_encode_value]
    split
    · intro h; exact absurd rfl h
    · intro _; rfl
  · simp only [alec_encode_multi]
    split
    · intro h; exact absurd rfl h
    · intro _; rfl

/--
Witness for C4 at a concrete input: capacity 0 makes `alec_encode_value` fail
with `ErrorBufferTooSmall` and the encoder is returned unchanged.
-/
theorem C4_failure_is_atomic_witness :
    (alec_encode_value alec_encoder_new 42 7 none 0).1 ≠ .Ok ∧
    (alec_encode_value alec_encoder_new 42 7 none 0).2.2 = alec_encoder_new := by
  refine ⟨by decide, ?_⟩
  exact (C4_failure_is_atomic alec_encoder_new alec_decoder_new 42 7 [] none 0 [] 0).1
    (by decide)

/--
Claim C5: for every encoder state and input, capacity one byte below the
required frame size yields `ErrorBufferTooSmall` with no bytes written,
capacity exactly equal to the required size succeeds, and there is never a
partial write (the output is the whole frame or nothing).
-/
theorem C5_capacity_boundary (e : AlecEncoder) (v t : Nat) (vs : List Nat)
    (sid : Option (List Nat)) :
    alec_encode_value e v t sid ((encodeValueFrame e v t).length - 1) =
      (.ErrorBufferTooSmall, [], e) ∧
    (alec_encode_value e v t sid (encodeValueFrame e v t).length).1 = .Ok ∧
    (∀ cap, (alec_encode_value e v t sid cap).2.1 = encodeValueFrame e v t ∨
      (alec_encode_value e v t sid cap).2.1 = []) ∧
    alec_encode_multi e vs t sid ((encodeMultiFrame e vs t).length - 1) =
      (.ErrorBufferTooSmall, [], e) ∧
    (alec_encode_multi e vs t sid (encodeMultiFrame e vs t).length).1 = .Ok ∧
    (∀ cap, (alec_encode_multi e vs t sid cap).2.1 = encodeMultiFrame e vs t ∨
      (alec_encode_multi e vs t sid cap).2.1 = []) := by
  have hpos1 : 0 < (encodeValueFrame e v t).length := by
    simp [encodeValueFrame, packFrame]
  have hpos2 : 0 < (encodeMultiFrame e vs t).length := by
    simp [encodeMultiFrame, packFrame]
  refine ⟨?_, ?_, ?_, ?_, ?_, ?_⟩
  · simp only [alec_encode_value]
    rw [if_neg (by omega)]
  · simp only [alec_encode_value]
    rw [if_pos (le_refl _)]
  · intro cap
    simp only [alec_encode_value]
    split
    · left; rfl
    · right; rfl
  · simp only [alec_encode_multi]
    rw [if_neg (by omega)]
  · simp only [alec_encode_multi]
    rw [if_pos (le_refl _)]
  · intro cap
    simp only [alec_encode_multi]
    split
    · left; rfl
    · right; rfl

/--
Claim C7: `alec_decode_value` and `alec_decode_multi` never change the
decoder's context or its reported version, whether they succeed or fail, so
decoding the same frame twice against the same decoder state yields identical
results.
-/
theorem C7_decode_does_not_mutate (d : AlecDecoder) (input : List Nat) (vcap : Nat) :
    (alec_decode_value d input).2.2 = d ∧
    (alec_decode_multi d input vcap).2.2 = d ∧
    alec_decoder_context_version (alec_decode_value d input).2.2 =
      alec_decoder_context_version d ∧
    alec_decoder_context_version (alec_decode_multi d input vcap).2.2 =
      alec_decoder_context_version d ∧
    alec_decode_value (alec_decode_value d input).2.2 input = alec_decode_value d input ∧
    alec_decode_multi (alec_decode_multi d input vcap).2.2 input vcap =
      alec_decode_multi d input vcap := by
  have h1 := alec_decode_value_snd d input
  have h2 := alec_decode_multi_snd d input vcap
  exact ⟨h1, h2, by rw [h1], by rw [h2], by rw [h1], by rw [h2]⟩

/--
Claim C9: encoding the same (source_id, value, timestamp) against two
structurally identical contexts yields byte-identical output: the whole
result of `alec_encode_value`, in particular the output bytes, coincides.
-/
theorem C9_encode_deterministic (c1 c2 : AdaptiveContext) (chk : Bool) (v t : Nat)
    (sid : Option (List Nat)) (cap : Nat) (h : c1 = c2) :
    alec_encode_value ⟨c1, chk⟩ v t sid cap = alec_encode_value ⟨c2, chk⟩ v t sid cap ∧
    (alec_encode_value ⟨c1, chk⟩ v t sid cap).2.1 =
      (alec_encode_value ⟨c2, chk⟩ v t sid cap).2.1 := by
  subst h; exact ⟨rfl, rfl⟩

/--
Witness for C9 at a concrete input: two encoders over the same empty context.
-/
theorem C9_encode_deterministic_witness :
    AdaptiveContext.empty = AdaptiveContext.empty ∧
    alec_encode_value ⟨AdaptiveContext.empty, false⟩ 42 7 none 64 =
      alec_encode_value ⟨AdaptiveContext.empty, false⟩ 42 7 none 64 :=
  ⟨rfl, (C9_encode_deterministic AdaptiveContext.empty AdaptiveContext.empty
    false 42 7 none 64 rfl).1⟩

/--
Claim C10: two encode calls differing only in the source identifier argument
(including absent versus any string) behave identically: same result code,
same output bytes and length, same post-call encoder.  The generated header
names the parameter `_source_id`: the implementation does not read it, and in
this model the argument is ignored.
-/
theorem C10_source_id_irrelevant (e : AlecEncoder) (v t : Nat) (vs : List Nat)
    (sid1 sid2 : Option (List Nat)) (cap : Nat) :
    alec_encode_value e v t sid1 cap = alec_encode_value e v t sid2 cap ∧
    alec_encode_multi e vs t sid1 cap = alec_encode_multi e vs t sid2 cap :=
  ⟨rfl, rfl⟩

theorem observe_version_le (c : AdaptiveContext) (v : Nat) :
    c.version ≤ (observe c v).version := by
  unfold observe
  split
  · exact le_refl _
  · exact Nat.le_succ _

theorem observeList_version_le (c : AdaptiveContext) (vs : List Nat) :
    c.version ≤ (observeList c vs).version := by
  induction vs generalizing c with
  | nil => exact le_refl _
  | cons v rest ih =>
    exact le_trans (observe_version_le c v) (ih (observe c v))

theorem encStep_version_le (e : AlecEncoder) (call : EncCall) :
    e.ctx.version ≤ (encStep e call).ctx.version := by
  cases call with
  | one v t sid cap =>
    simp only [encStep, alec_encode_value]
    split
    · exact observe_version_le e.ctx v
    · exact le_refl _
  | many vs t sid cap =>
    simp only [encStep, alec_encode_multi]
    split
    · exact observeList_version_le e.ctx vs
    · exact le_refl _

/--
Claim C6: across any finite sequence of encode calls on one encoder instance
the reported context version never decreases, and right after a successful
encode call `alec_encoder_context_version` already equals the version of the
post-encode model state.
-/
theorem C6_version_monotone (e : AlecEncoder) (cs : List EncCall) (v t : Nat)
    (vs : List Nat) (sid : Option (List Nat)) (cap : Nat) :
    alec_encoder_context_version e ≤ alec_encoder_context_version (runEncCalls e cs) ∧
    ((alec_encode_value e v t sid cap).1 = .Ok →
      alec_encoder_context_version (alec_encode_value e v t sid cap).2.2 =
        (observe e.ctx v).version) ∧
    ((alec_encode_multi e vs t sid cap).1 = .Ok →
      alec_encoder_context_version (alec_encode_multi e vs t sid cap).2.2 =
        (observeList e.ctx vs).version) := by
  refine ⟨?_, ?_, ?_⟩
  · show e.ctx.version ≤ (runEncCalls e cs).ctx.version
    induction cs generalizing e with
    | nil => exact le_refl _
    | cons c rest ih =>
      exact le_trans (encStep_version_le e c) (ih (encStep e c))
  · simp only [alec_encode_value, alec_encoder_context_version]
    split
    · intro _; rfl
    · intro h; exact absurd h (by simp)
  · simp only [alec_encode_multi, alec_encoder_context_version]
    split
    · intro _; rfl
    · intro h; exact absurd h (by simp)

/--
Witness for C6 at a concrete input: one successful `alec_encode_value` call on
a fresh encoder; the version is monotone over the two-call sequence and the
post-call version is that of the observed context.
-/
theorem C6_version_monotone_witness :
    alec_encoder_context_version alec_encoder_new ≤
      alec_encoder_context_version
        (runEncCalls alec_encoder_new [.one 42 7 none 64, .many [5, 6] 3 none 64]) ∧
    (alec_encode_value alec_encoder_new 42 7 none 64).1 = .Ok ∧
    alec_encoder_context_version (alec_encode_value alec_encoder_new 42 7 none 64).2.2 =
      (observe alec_encoder_new.ctx 42).version := by
  have h := C6_version_monotone alec_encoder_new
    [.one 42 7 none 64, .many [5, 6] 3 none 64] 42 7 [5, 6] none 64
  exact ⟨h.1, by decide, h.2.1 (by decide)⟩

theorem readVals_tableToBytes (tbl suffix : List Nat) (htbl : ∀ x ∈ tbl, x < 2 ^ 64) :
    readVals tbl.length (tableToBytes tbl ++ suffix) = some (tbl, suffix) := by
  induction tbl with
  | nil => rfl
  | cons x rest ih =>
    have hx : x < 2 ^ 64 := htbl x (List.mem_cons_self _ _)
    have hassoc : tableToBytes (x :: rest) ++ suffix =
        toLEBytes 8 x ++ (tableToBytes rest ++ suffix) := by
      simp [tableToBytes]
    simp only [List.length_cons, readVals, hassoc]
    rw [if_pos (by simp [toLEBytes_length])]
    rw [take_append_len (toLEBytes_length 8 _).symm,
      drop_append_len (toLEBytes_length 8 _).symm,
      ih (fun y hy => htbl y (List.mem_cons_of_mem _ hy)), fromLE_toLE8 hx]

theorem parseTable_eval (lastV : Option Nat) (ver : Nat) (tbl : List Nat)
    (htlen : tbl.length < 2 ^ 32) (htbl : ∀ x ∈ tbl, x < 2 ^ 64) :
    parseTable lastV ver (toLEBytes 4 tbl.length ++ tableToBytes tbl) =
      .ok ⟨lastV, tbl, ver⟩ := by
  unfold parseTable
  rw [if_pos (by simp [toLEBytes_length])]
  rw [take_append_len (toLEBytes_length 4 _).symm,
    drop_append_len (toLEBytes_length 4 _).symm, fromLE_toLE4 htlen]
  have h := readVals_tableToBytes tbl [] htbl
  rw [List.append_nil] at h
  rw [h]

theorem from_bytes_to_bytes (c : AdaptiveContext) (st : List Nat)
    (hver : c.version < 2 ^ 32) (htlen : c.table.length < 2 ^ 32)
    (hlast : ∀ x, c.lastValue = some x → x < 2 ^ 64)
    (htbl : ∀ x ∈ c.table, x < 2 ^ 64) :
    from_bytes (to_bytes c st) st = .ok c := by
  obtain ⟨lastV, tbl, ver⟩ := c
  simp only [AdaptiveContext.version] at hver
  simp only [AdaptiveContext.table] at htlen htbl
  simp only [AdaptiveContext.lastValue] at hlast
  simp only [to_bytes, from_bytes]
  rw [if_pos (by refine ⟨trivial, trivial, by simp, take_append_len rfl⟩)]
  rw [drop_append_len rfl]
  cases lastV with
  | none =>
    rw [if_pos (by simp only [List.length_append, List.length_cons, toLEBytes_length]; omega)]
    rw [take_append_len (toLEBytes_length 4 _).symm,
      drop_append_len (toLEBytes_length 4 _).symm, fromLE_toLE4 hver]
    rw [List.singleton_append]
    rw [List.take_succ_cons, List.take_zero, fromLEBytes_singleton, if_pos rfl]
    rw [List.drop_succ_cons, List.drop_zero]
    exact parseTable_eval none ver tbl htlen htbl
  | some v =>
    have hv : v < 2 ^ 64 := hlast v rfl
    rw [if_pos (by simp only [List.length_append, List.length_cons, toLEBytes_length]; omega)]
    rw [take_append_len (toLEBytes_length 4 _).symm,
      drop_append_len (toLEBytes_length 4 _).symm, fromLE_toLE4 hver]
    rw [List.cons_append]
    rw [List.take_succ_cons, List.take_zero, fromLEBytes_singleton]
    rw [if_neg (by norm_num), if_pos rfl]
    rw [List.drop_succ_cons, List.drop_zero]
    rw [if_pos (by simp [toLEBytes_length])]
    rw [take_append_len (toLEBytes_length 8 _).symm,
      drop_append_len (toLEBytes_length 8 _).symm, fromLE_toLE8 hv]
    exact parseTable_eval (some v) ver tbl htlen htbl

theorem parseTable_classify (lastV : Option Nat) (ver : Nat) (bs : List Nat) :
    (∃ c, parseTable lastV ver bs = .ok c) ∨
    parseTable lastV ver bs = .error .ErrorInvalidInput ∨
    parseTable lastV ver bs = .error .ErrorDecodingFailed := by
  unfold parseTable
  split
  · split
    · exact Or.inl ⟨_, rfl⟩
    · exact Or.inr (Or.inr rfl)
    · exact Or.inr (Or.inr rfl)
  · exact Or.inr (Or.inl rfl)

theorem from_bytes_classify (blob st : List Nat) :
    (∃ c, from_bytes blob st = .ok c) ∨
    from_bytes blob st = .error .ErrorInvalidInput ∨
    from_bytes blob st = .error .ErrorDecodingFailed := by
  unfold from_bytes
  split
  · split
    · split
      · split
        · exact parseTable_classify _ _ _
        · split
          · split
            · exact parseTable_classify _ _ _
            · exact Or.inr (Or.inr rfl)
          · exact Or.inr (Or.inr rfl)
      · exact Or.inr (Or.inl rfl)
    · exact Or.inr (Or.inl rfl)
  · exact Or.inr (Or.inl rfl)

/--
Claim C8: serializing an adaptive context with `to_bytes` and loading the
result with `from_bytes` reproduces the context exactly, including the
version; the reloaded instance reports the same `context_version` and its
decode behavior is identical to the original's at save time; any blob that
does not parse fails with `ErrorInvalidInput` or `ErrorDecodingFailed`.
-/
theorem C8_persistence_roundtrip (c : AdaptiveContext) (st : List Nat) (chk : Bool)
    (hver : c.version < 2 ^ 32) (htlen : c.table.length < 2 ^ 32)
    (hlast : ∀ x, c.lastValue = some x → x < 2 ^ 64)
    (htbl : ∀ x ∈ c.table, x < 2 ^ 64) :
    from_bytes (to_bytes c st) st = .ok c ∧
    (∀ c2, from_bytes (to_bytes c st) st = .ok c2 →
      alec_decoder_context_version ⟨c2, chk⟩ = alec_decoder_context_version ⟨c, chk⟩ ∧
      (∀ input, alec_decode_value ⟨c2, chk⟩ input = alec_decode_value ⟨c, chk⟩ input) ∧
      (∀ input vcap,
        alec_decode_multi ⟨c2, chk⟩ input vcap = alec_decode_multi ⟨c, chk⟩ input vcap)) ∧
    (∀ blob, (∃ c3, from_bytes blob st = .ok c3) ∨
      from_bytes blob st = .error .ErrorInvalidInput ∨
      from_bytes blob st = .error .ErrorDecodingFailed) := by
  have h1 := from_bytes_to_bytes c st hver htlen hlast htbl
  refine ⟨h1, ?_, fun blob => from_bytes_classify blob st⟩
  intro c2 h2
  rw [h1] at h2
  injection h2 with h3
  subst h3
  exact ⟨rfl, fun _ => rfl, fun _ _ => rfl⟩

/--
Witness for C8 at a concrete input: the context (some 42, [42], version 1)
trained against sensor tag [116] round-trips exactly through
`to_bytes`/`from_bytes`.
-/
theorem C8_persistence_roundtrip_witness :
    (⟨some 42, [42], 1⟩ : AdaptiveContext).version < 2 ^ 32 ∧
    from_bytes (to_bytes ⟨some 42, [42], 1⟩ [116]) [116] =
      .ok (⟨some 42, [42], 1⟩ : AdaptiveContext) := by
  refine ⟨by norm_num, ?_⟩
  exact (C8_persistence_roundtrip ⟨some 42, [42], 1⟩ [116] false (by norm_num)
    (by norm_num) (fun x hx => by injection hx with h; subst h; norm_num)
    (by decide)).1

end Alec
